import Mathlib

/-!
Shallow embedding of `agentflow_cli/src/app/utils/file_helper.py` (class `FileHelper`).

Python strings are modelled as `List Char` (one element per code point), byte
payloads as `List (Fin 256)`.  Exceptions (`ValueError`, `fastapi.HTTPException`)
are modelled by the error side of `Except PyErr`.  The optional `textxtract`
dependency (`AsyncTextExtractor`) is modelled as an `Option Extractor` argument:
`none` corresponds to the library being absent, and a present extractor either
returns a string or raises.
-/

namespace FileHelperModel

/-- Whitespace test used by Python `str.strip()` / `str.split()` (ASCII part of
Python's whitespace set; the claims do not distinguish further members). -/
def isSpace (c : Char) : Bool :=
  c = ' ' || c = '\t' || c = '\n' || c = '\r' || c = '\x0b' || c = '\x0c'

/-- Drop trailing whitespace: the right-hand half of Python `str.strip()`. -/
def rdropSpace (l : List Char) : List Char :=
  (l.reverse.dropWhile isSpace).reverse

/-- Python `str.strip()` on a list of characters. -/
def pyStrip (l : List Char) : List Char :=
  rdropSpace (l.dropWhile isSpace)

/-- Fuelled worker for Python `str.split()` with no argument: split on runs of
whitespace, discarding empty chunks.  The fuel only serves to make the
definition structurally recursive; `words` supplies enough fuel. -/
def wordsFuel : Nat → List Char → List (List Char)
  | 0, _ => []
  | _ + 1, [] => []
  | fuel + 1, c :: cs =>
    if isSpace c then wordsFuel fuel cs
    else
      (c :: cs.takeWhile (fun x => !isSpace x)) ::
        wordsFuel fuel (cs.dropWhile (fun x => !isSpace x))

/-- Python `str.split()` with no separator argument. -/
def words (l : List Char) : List (List Char) := wordsFuel l.length l

/-- Python `" ".join(ws)`. -/
def joinWords : List (List Char) → List Char
  | [] => []
  | [w] => w
  | w :: ws => w ++ ' ' :: joinWords ws

/-- Lines 127-128 of the source: `text = text.strip()` followed by
`text = " ".join(text.split())`. -/
def pyNormalize (l : List Char) : List Char := joinWords (words (pyStrip l))

/-- Failures raised by the helper: `ValueError` or `fastapi.HTTPException`
(status code plus detail message). -/
inductive PyErr where
  | valueError (msg : String)
  | httpError (status : Nat) (detail : String)
deriving DecidableEq

/-- Python `str(e)` for the modelled exceptions: `ValueError` prints its
message, Starlette `HTTPException.__str__` prints `f"{status_code}: {detail}"`. -/
def pyStrOfErr : PyErr → String
  | .valueError m => m
  | .httpError s d => toString s ++ ": " ++ d

/-- A byte value. -/
abbrev Byte := Fin 256

/-- The parts of a FastAPI `UploadFile` the helper consults: the (optional)
filename and the byte payload returned by `file.read()`. -/
structure UploadFile where
  filename : Option String
  content : List Byte
deriving DecidableEq

/-- Constant `FileHelper.MAX_FILE_SIZE = 10 * 1024 * 1024`. -/
def MAX_FILE_SIZE : Nat := 10 * 1024 * 1024

/-- Constant `FileHelper.SUPPORTED_TEXT_EXTENSIONS`. -/
def SUPPORTED_TEXT_EXTENSIONS : List String := [".txt", ".rtf"]

/-- Constant `FileHelper.SUPPORTED_DOC_EXTENSIONS`. -/
def SUPPORTED_DOC_EXTENSIONS : List String := [".pdf", ".doc", ".docx"]

/-- Constant `FileHelper.SUPPORTED_EXTENSIONS`. -/
def SUPPORTED_EXTENSIONS : List String :=
  SUPPORTED_TEXT_EXTENSIONS ++ SUPPORTED_DOC_EXTENSIONS

/-- Constant `FileHelper.ENCODING_FALLBACKS`. -/
def ENCODING_FALLBACKS : List String := ["utf-8", "latin-1", "cp1252", "iso-8859-1"]

/-- Model of `filename.lower()` (ASCII lowering, as relevant for the extension set). -/
def lowerChars (s : List Char) : List Char := s.map Char.toLower

/-- Python `s.endswith(ext)` on the char-list model. -/
def endsWithOne (s : List Char) (ext : String) : Bool :=
  List.isSuffixOf ext.data s

/-- Model of `any(filename.lower().endswith(ext) for ext in exts)`. -/
def hasExtIn (exts : List String) (filename : String) : Bool :=
  exts.any (fun e => endsWithOne (lowerChars filename.data) e)

/-- Model of `FileHelper._process_text_input`. -/
def process_text_input (l : List Char) : Except PyErr (List Char) :=
  let t := pyNormalize l
  if t.isEmpty then .error (.valueError "Provided text is empty after processing")
  else .ok t

/-- Model of the join `", ".join(SUPPORTED_EXTENSIONS)`. -/
def supportedListStr : String := ", ".intercalate SUPPORTED_EXTENSIONS

/-- Model of `FileHelper._validate_file_type`. -/
def validate_file_type (filename : String) : Except PyErr Unit :=
  if hasExtIn SUPPORTED_EXTENSIONS filename then .ok ()
  else .error (.httpError 415 ("Unsupported file type. Supported types: " ++ supportedListStr))

/-- Model of `FileHelper._validate_file_size`. -/
def validate_file_size (content : List Byte) : Except PyErr Unit :=
  if MAX_FILE_SIZE < content.length then
    .error (.httpError 413 "File too large. Maximum size is 10.0MB")
  else if content.length = 0 then
    .error (.httpError 400 "File is empty")
  else .ok ()

/-- Classification of a UTF-8 lead byte: ASCII, stray continuation byte,
lead byte of a 2-, 3- or 4-byte sequence, or invalid (`0xF8..0xFF`). -/
inductive Utf8Class where
  | ascii
  | cont
  | two
  | three
  | four
  | bad
deriving DecidableEq

/-- The class of a lead byte, read off its value range. -/
def utf8Class (b : Byte) : Utf8Class :=
  if b.val < 128 then .ascii
  else if b.val < 192 then .cont
  else if b.val < 224 then .two
  else if b.val < 240 then .three
  else if b.val < 248 then .four
  else .bad

/-- Is `x` a UTF-8 continuation byte (`0x80..0xBF`)? -/
def utf8Cont (x : Byte) : Bool := 128 ≤ x.val && x.val < 192

/-- Combine and validate a 2-byte sequence (rejecting overlong encodings). -/
def utf8Two (b b1 : Byte) : Option Nat :=
  if utf8Cont b1 then
    let cp := (b.val - 192) * 64 + (b1.val - 128)
    if 128 ≤ cp then some cp else none
  else none

/-- Combine and validate a 3-byte sequence (rejecting overlong encodings and
surrogate code points). -/
def utf8Three (b b1 b2 : Byte) : Option Nat :=
  if utf8Cont b1 && utf8Cont b2 then
    let cp := (b.val - 224) * 4096 + (b1.val - 128) * 64 + (b2.val - 128)
    if 2048 ≤ cp && !(55296 ≤ cp && cp ≤ 57343) then some cp else none
  else none

/-- Combine and validate a 4-byte sequence (rejecting overlong encodings and
values above `0x10FFFF`). -/
def utf8Four (b b1 b2 b3 : Byte) : Option Nat :=
  if utf8Cont b1 && (utf8Cont b2 && utf8Cont b3) then
    let cp := (b.val - 240) * 262144 + (b1.val - 128) * 4096 +
      (b2.val - 128) * 64 + (b3.val - 128)
    if 65536 ≤ cp && cp ≤ 1114111 then some cp else none
  else none

/-- Fuelled worker for strict UTF-8 decoding.  The fuel only makes the
recursion structural; one unit of fuel is enough per consumed lead byte, so
`utf8Decode` below supplies `l.length`. -/
def utf8DecodeFuel : Nat → List Byte → Option (List Char)
  | _, [] => some []
  | 0, _ :: _ => none
  | fuel + 1, b :: bs =>
    match utf8Class b with
    | .ascii => (utf8DecodeFuel fuel bs).map (fun cs => Char.ofNat b.val :: cs)
    | .cont => none
    | .bad => none
    | .two =>
      (match bs with
       | b1 :: bs1 =>
         (match utf8Two b b1 with
          | some cp => (utf8DecodeFuel fuel bs1).map (fun cs => Char.ofNat cp :: cs)
          | none => none)
       | [] => none)
    | .three =>
      (match bs with
       | b1 :: b2 :: bs2 =>
         (match utf8Three b b1 b2 with
          | some cp => (utf8DecodeFuel fuel bs2).map (fun cs => Char.ofNat cp :: cs)
          | none => none)
       | _ => none)
    | .four =>
      (match bs with
       | b1 :: b2 :: b3 :: bs3 =>
         (match utf8Four b b1 b2 b3 with
          | some cp => (utf8DecodeFuel fuel bs3).map (fun cs => Char.ofNat cp :: cs)
          | none => none)
       | _ => none)

/-- Strict UTF-8 decoding of a byte list, as performed by Python
`bytes.decode("utf-8")`: rejects stray or missing continuation bytes, overlong
encodings, surrogate code points and values above `0x10FFFF`. -/
def utf8Decode (l : List Byte) : Option (List Char) := utf8DecodeFuel l.length l

/-- Python `bytes.decode("latin-1")` (and `"iso-8859-1"`): every byte maps to
the code point of the same value; total on bytes. -/
def latin1Decode (bs : List Byte) : List Char :=
  bs.map (fun b => Char.ofNat b.val)

/-- The `cp1252` mapping for bytes in `0x80..0x9F`; `none` marks the five
unassigned bytes on which Python `bytes.decode("cp1252")` raises. -/
def cp1252High (n : Nat) : Option Nat :=
  if n = 128 then some 8364
  else if n = 130 then some 8218
  else if n = 131 then some 402
  else if n = 132 then some 8222
  else if n = 133 then some 8230
  else if n = 134 then some 8224
  else if n = 135 then some 8225
  else if n = 136 then some 710
  else if n = 137 then some 8240
  else if n = 138 then some 352
  else if n = 139 then some 8249
  else if n = 140 then some 338
  else if n = 142 then some 381
  else if n = 145 then some 8216
  else if n = 146 then some 8217
  else if n = 147 then some 8220
  else if n = 148 then some 8221
  else if n = 149 then some 8226
  else if n = 150 then some 8211
  else if n = 151 then some 8212
  else if n = 152 then some 732
  else if n = 153 then some 8482
  else if n = 154 then some 353
  else if n = 155 then some 8250
  else if n = 156 then some 339
  else if n = 158 then some 382
  else if n = 159 then some 376
  else none

/-- Python `bytes.decode("cp1252")` on a single byte. -/
def cp1252DecodeByte (b : Byte) : Option Char :=
  if b.val < 128 || 160 ≤ b.val then some (Char.ofNat b.val)
  else (cp1252High b.val).map Char.ofNat

/-- Python `bytes.decode("cp1252")`. -/
def cp1252Decode (bs : List Byte) : Option (List Char) :=
  bs.mapM cp1252DecodeByte

/-- Model of `file_content.decode(encoding)` for the four encodings the source names;
`none` models `UnicodeDecodeError` (or `LookupError` for unknown names). -/
def decodeWith (enc : String) (bs : List Byte) : Option (List Char) :=
  if enc = "utf-8" then utf8Decode bs
  else if enc = "latin-1" then some (latin1Decode bs)
  else if enc = "cp1252" then cp1252Decode bs
  else if enc = "iso-8859-1" then some (latin1Decode bs)
  else none

/-- The `for encoding in ENCODING_FALLBACKS` loop body: first successful decode
wins, later encodings are not attempted. -/
def firstDecode (encs : List String) (bs : List Byte) : Option (List Char) :=
  match encs with
  | [] => none
  | enc :: rest =>
    match decodeWith enc bs with
    | some s => some s
    | none => firstDecode rest bs

/-- Model of `FileHelper._decode_text_file`. -/
def decode_text_file (bs : List Byte) : Except PyErr (List Char) :=
  match firstDecode ENCODING_FALLBACKS bs with
  | some s => .ok s
  | none =>
    .error (.httpError 400
      ("Unable to decode text file. Tried encodings: " ++ " " ++
        ", ".intercalate ENCODING_FALLBACKS))

/-- Behaviour of one `AsyncTextExtractor().extract(...)` call: it either
returns a string or raises. -/
inductive ExtractOutcome where
  | ok (text : List Char)
  | raise (msg : String)

/-- The extraction capability: bytes and filename to an outcome. -/
abbrev Extractor := List Byte → String → ExtractOutcome

/-- Model of `FileHelper._extract_text_from_file`; the `Option Extractor` argument
models `AsyncTextExtractor` being `None` when `textxtract` is missing. -/
def extract_text_from_file (ext : Option Extractor) (content : List Byte)
    (filename : String) : Except PyErr (List Char) :=
  match ext with
  | none =>
    .error (.httpError 500 "Text extraction not available. Please install textxtract library.")
  | some e =>
    match e content filename with
    | .raise msg =>
      .error (.httpError 500 ("Failed to extract text from \x27" ++ filename ++ "\x27: " ++ msg))
    | .ok t =>
      if t.isEmpty || (pyStrip t).isEmpty then
        .error (.httpError 400
          ("No text could be extracted from the file \x27" ++ filename ++ "\x27"))
      else .ok (pyStrip t)

/-- Python falsiness of `file.filename` (`None` or the empty string). -/
def filenameFalsy : Option String → Bool
  | none => true
  | some s => s.data.isEmpty

/-- Model of `FileHelper._process_file_input`. -/
def process_file_input (ext : Option Extractor) (file : UploadFile) :
    Except PyErr (List Char) :=
  if filenameFalsy file.filename then
    .error (.httpError 400 "File must have a filename")
  else
    let fn := file.filename.getD ""
    match validate_file_type fn with
    | .error e => .error e
    | .ok _ =>
      match validate_file_size file.content with
      | .error e => .error e
      | .ok _ =>
        if hasExtIn SUPPORTED_TEXT_EXTENSIONS fn then
          decode_text_file file.content
        else
          extract_text_from_file ext file.content fn

/-- Python truthiness of the `text` argument (`None` and `""` are falsy). -/
def textTruthy : Option String → Bool
  | none => false
  | some s => !s.data.isEmpty

/-- Model of `FileHelper.prepare_text`. -/
def prepare_text (ext : Option Extractor) (text : Option String)
    (file : Option UploadFile) : Except PyErr (List Char) :=
  if !textTruthy text && file.isNone then
    .error (.valueError "Either \x27text\x27 or \x27file\x27 must be provided")
  else if textTruthy text then
    process_text_input (text.getD "").data
  else
    match file with
    | some f => process_file_input ext f
    | none => .error (.valueError "Either \x27text\x27 or \x27file\x27 must be provided")

/-- The `except Exception as e` clause of `prepare_text_from_files`: any
per-file failure is re-raised as a 400 `HTTPException` embedding `str(e)`. -/
def batchWrap (f : UploadFile) (e : PyErr) : PyErr :=
  .httpError 400
    ("Failed to process file \x27" ++
      (match f.filename with | none => "None" | some s => s) ++ "\x27: " ++ pyStrOfErr e)

/-- The `for idx, file in enumerate(files)` loop of `prepare_text_from_files`. -/
def processFilesLoop (ext : Option Extractor) : List UploadFile → Except PyErr (List (List Char))
  | [] => .ok []
  | f :: fs =>
    match process_file_input ext f with
    | .ok t =>
      match processFilesLoop ext fs with
      | .ok ts => .ok (t :: ts)
      | .error e => .error e
    | .error e => .error (batchWrap f e)

/-- Model of `FileHelper.prepare_text_from_files`. -/
def prepare_text_from_files (ext : Option Extractor) (files : List UploadFile) :
    Except PyErr (List (List Char)) :=
  if files.isEmpty then .error (.valueError "At least one file must be provided")
  else processFilesLoop ext files

/-- The HTTP status carried by a failed result, when the failure is an
`HTTPException`. -/
def errorStatus {α : Type} : Except PyErr α → Option Nat
  | .error (.httpError s _) => some s
  | _ => none

/-- Clearly spec-side definition for the refinement claim about text
normalization.  It follows the spec words "collapse all internal whitespace
runs (including newlines/tabs) to single ASCII spaces": each maximal run of
whitespace becomes one space character. -/
def specCollapseWs : List Char → List Char
  | [] => []
  | c :: cs =>
    if isSpace c then ' ' :: specCollapseWs (cs.dropWhile isSpace)
    else c :: specCollapseWs cs
termination_by l => l.length
decreasing_by
  · have h := (List.dropWhile_sublist (p := isSpace) (l := cs)).length_le
    simp only [List.length_cons]
    omega
  · simp only [List.length_cons]
    omega

/-- Spec-side normalization: "Strip leading/trailing whitespace, then collapse
all internal whitespace runs ... to single ASCII spaces". -/
def specNormalize (l : List Char) : List Char := specCollapseWs (pyStrip l)

/-- The list has no leading whitespace character. -/
def noLeadSpace (l : List Char) : Prop :=
  ∀ c, l.head? = some c → isSpace c = false

/-- The list has no trailing whitespace character. -/
def noTrailSpace (l : List Char) : Prop :=
  ∀ c, l.getLast? = some c → isSpace c = false

/-! ## General lemmas about the helpers -/

theorem pyStrip_eq_nil_iff (t : List Char) :
    pyStrip t = [] ↔ ∀ c ∈ t, isSpace c = true := by
  unfold pyStrip rdropSpace
  rw [List.reverse_eq_nil_iff, List.dropWhile_eq_nil_iff]
  constructor
  · intro h c hc
    have hsplit := List.takeWhile_append_dropWhile (p := isSpace) (l := t)
    rw [← hsplit] at hc
    rcases List.mem_append.mp hc with h1 | h2
    · exact List.mem_takeWhile_imp h1
    · exact h c (by simpa using h2)
  · intro h c hc
    simp only [List.mem_reverse] at hc
    exact h c (List.dropWhile_subset (p := isSpace) hc)

theorem decode_text_file_eq (bs : List Byte) :
    decode_text_file bs = .ok ((utf8Decode bs).getD (latin1Decode bs)) := by
  have hu : decodeWith "utf-8" bs = utf8Decode bs := rfl
  have hl : decodeWith "latin-1" bs = some (latin1Decode bs) := rfl
  cases h : utf8Decode bs with
  | some u =>
    simp [decode_text_file, ENCODING_FALLBACKS, firstDecode, hu, hl, h]
  | none =>
    simp [decode_text_file, ENCODING_FALLBACKS, firstDecode, hu, hl, h]

/-! ## Claim theorems -/

/-- C1: input-source arbitration of `prepare_text`: with neither source (or
empty-string text and no file) it fails with the `InvalidInput` `ValueError`;
with non-empty text the text path is taken regardless of the file (the result
is exactly `process_text_input` of the text, so the file is never read); with
empty-string text and a file the file path is taken. -/
theorem c1_input_arbitration (ext : Option Extractor) (t : String) (f : UploadFile)
    (ht : t.data ≠ []) :
    prepare_text ext none none =
      .error (.valueError "Either \x27text\x27 or \x27file\x27 must be provided") ∧
    prepare_text ext (some "") none =
      .error (.valueError "Either \x27text\x27 or \x27file\x27 must be provided") ∧
    prepare_text ext (some t) (some f) = process_text_input t.data ∧
    prepare_text ext (some "") (some f) = process_file_input ext f := by
  refine ⟨rfl, rfl, ?_, rfl⟩
  have htt : textTruthy (some t) = true := by
    simpa [textTruthy] using ht
  simp [prepare_text, htt]

/-- Witness for C1 with text `"hi"` and a valid `.txt` file. -/
theorem c1_input_arbitration_witness :
    prepare_text none none none =
      .error (.valueError "Either \x27text\x27 or \x27file\x27 must be provided") ∧
    prepare_text none (some "") none =
      .error (.valueError "Either \x27text\x27 or \x27file\x27 must be provided") ∧
    prepare_text none (some "hi") (some ⟨some "a.txt", [104, 105]⟩) =
      process_text_input "hi".data ∧
    prepare_text none (some "") (some ⟨some "a.txt", [104, 105]⟩) =
      process_file_input none ⟨some "a.txt", [104, 105]⟩ :=
  c1_input_arbitration none "hi" ⟨some "a.txt", [104, 105]⟩ (by decide)

/-- C7: size gating boundary: 0-byte payloads fail with the `EmptyFile` error,
payloads of `MAX_FILE_SIZE + 1` bytes fail with `FileTooLarge`, and payloads of
exactly `MAX_FILE_SIZE` bytes pass size validation. -/
theorem c7_size_gating (c0 c1 c2 : List Byte)
    (h0 : c0.length = 0) (h1 : c1.length = MAX_FILE_SIZE + 1)
    (h2 : c2.length = MAX_FILE_SIZE) :
    validate_file_size c0 = .error (.httpError 400 "File is empty") ∧
    validate_file_size c1 = .error (.httpError 413 "File too large. Maximum size is 10.0MB") ∧
    validate_file_size c2 = .ok () := by
  unfold validate_file_size
  refine ⟨?_, ?_, ?_⟩
  · rw [h0]
    simp [MAX_FILE_SIZE]
  · rw [h1]
    simp
  · rw [h2]
    simp [MAX_FILE_SIZE]

/-- Witness for C7 at the three boundary payload sizes. -/
theorem c7_size_gating_witness :
    validate_file_size [] = .error (.httpError 400 "File is empty") ∧
    validate_file_size (List.replicate (MAX_FILE_SIZE + 1) 0) =
      .error (.httpError 413 "File too large. Maximum size is 10.0MB") ∧
    validate_file_size (List.replicate MAX_FILE_SIZE 0) = .ok () :=
  c7_size_gating [] (List.replicate (MAX_FILE_SIZE + 1) 0) (List.replicate MAX_FILE_SIZE 0)
    rfl (by simp) (by simp)

/-- C5: the decode fallback chain is total on byte sequences: the result is the
UTF-8 decoding when the bytes are valid UTF-8 and otherwise the latin-1
decoding (the first accepting encoding in the fixed order wins), and the
exhaustive-failure `DecodeFailure` branch is unreachable. -/
theorem c5_decode_chain_total (bs : List Byte) (_hne : bs ≠ []) :
    decode_text_file bs = .ok ((utf8Decode bs).getD (latin1Decode bs)) ∧
    ∀ e, decode_text_file bs ≠ .error e := by
  refine ⟨decode_text_file_eq bs, ?_⟩
  intro e hcon
  rw [decode_text_file_eq bs] at hcon
  exact absurd hcon (by simp)

/-- Witness for C5 on the single byte `0x41`. -/
theorem c5_decode_chain_total_witness :
    decode_text_file [65] = .ok ((utf8Decode [65]).getD (latin1Decode [65])) ∧
    ∀ e, decode_text_file [65] ≠ .error e :=
  c5_decode_chain_total [65] (by decide)

/-- C8: extraction-delegate path: when the capability yields an empty or
all-whitespace string the call fails with `NoTextExtracted`; otherwise it
returns the extracted text stripped of surrounding whitespace only (`pyStrip`,
with no internal whitespace collapsing). -/
theorem c8_extraction_path (ex : Extractor) (content : List Byte) (fn : String)
    (t : List Char) (hex : ex content fn = .ok t) :
    ((∀ c ∈ t, isSpace c = true) →
      extract_text_from_file (some ex) content fn =
        .error (.httpError 400
          ("No text could be extracted from the file \x27" ++ fn ++ "\x27"))) ∧
    ((∃ c ∈ t, isSpace c = false) →
      extract_text_from_file (some ex) content fn = .ok (pyStrip t)) := by
  constructor
  · intro hall
    have h1 : pyStrip t = [] := (pyStrip_eq_nil_iff t).mpr hall
    simp [extract_text_from_file, hex, h1]
  · rintro ⟨c, hc, hcs⟩
    have h1 : pyStrip t ≠ [] := by
      rw [Ne, pyStrip_eq_nil_iff]
      intro hall
      rw [hall c hc] at hcs
      cases hcs
    have h2 : t ≠ [] := by
      rintro rfl
      cases hc
    simp [extract_text_from_file, hex, h1, h2]

/-- Witness for C8: an extractor yielding `"a  b"` (internal double space);
the result keeps the internal run uncollapsed. -/
theorem c8_extraction_path_witness :
    extract_text_from_file (some (fun _ _ => ExtractOutcome.ok ['a', ' ', ' ', 'b']))
        [1] "doc.pdf" = .ok ['a', ' ', ' ', 'b'] :=
  (c8_extraction_path (fun _ _ => ExtractOutcome.ok ['a', ' ', ' ', 'b']) [1] "doc.pdf"
      ['a', ' ', ' ', 'b'] rfl).2 ⟨'a', by decide, by decide⟩

/-- C10: a non-empty but all-whitespace `text` together with a valid file takes
the text path (whitespace-only text is not treated as absent): the call fails
with the empty-after-normalization error even though the file alone would have
succeeded, and the file result plays no role. -/
theorem c10_whitespace_text_blocks_file (ext : Option Extractor) (t : String)
    (f : UploadFile)
    (hne : t.data ≠ []) (hws : ∀ c ∈ t.data, isSpace c = true)
    (_hfok : ∃ rr, process_file_input ext f = .ok rr) :
    prepare_text ext (some t) (some f) =
      .error (.valueError "Provided text is empty after processing") := by
  have htt : textTruthy (some t) = true := by
    simpa [textTruthy] using hne
  have hstrip : pyStrip t.data = [] := (pyStrip_eq_nil_iff _).mpr hws
  have hnorm : pyNormalize t.data = [] := by
    unfold pyNormalize
    rw [hstrip]
    rfl
  simp [prepare_text, htt, process_text_input, hnorm]

/-- Witness for C10: text `"  "` shadows a valid `.txt` file. -/
theorem c10_whitespace_text_blocks_file_witness :
    prepare_text none (some "  ") (some ⟨some "a.txt", [104, 105]⟩) =
      .error (.valueError "Provided text is empty after processing") :=
  c10_whitespace_text_blocks_file none "  " ⟨some "a.txt", [104, 105]⟩
    (by decide) (by decide) ⟨['h', 'i'], rfl⟩

/-- Counterexample to C3 as stated: for the single unsupported file
`report.xlsx`, `process_file_input` fails with status 415, but the batch
`prepare_text_from_files` surfaces status 400 — the status class of the first
failing file is NOT preserved through batch propagation. -/
theorem c3_counterexample :
    errorStatus (process_file_input none ⟨some "report.xlsx", [65]⟩) = some 415 ∧
    errorStatus (prepare_text_from_files none [⟨some "report.xlsx", [65]⟩]) = some 400 ∧
    errorStatus (prepare_text_from_files none [⟨some "report.xlsx", [65]⟩]) ≠
      errorStatus (process_file_input none ⟨some "report.xlsx", [65]⟩) :=
  ⟨rfl, rfl, by decide⟩

/-- C3 (amended): failing validations carry their kind's transport class —
unsupported type is a 415 whose message enumerates the full supported-suffix
list, oversize is a 413, extraction-unavailable and extraction faults are
500s — and single-file `prepare_text` surfaces the failure verbatim; but
`prepare_text_from_files` re-wraps the first failing file's error as a
400-class `HTTPException` embedding the original error text. -/
theorem c3_error_transport (ext : Option Extractor) (fn : String) (content : List Byte)
    (f : UploadFile) (fn2 : String) (rest : List UploadFile) (e : PyErr)
    (ex : Extractor) (msg : String)
    (hty : hasExtIn SUPPORTED_EXTENSIONS fn = false)
    (hbig : MAX_FILE_SIZE < content.length)
    (hraise : ex content fn = .raise msg)
    (hfail : process_file_input ext f = .error e)
    (hfn2 : f.filename = some fn2) :
    validate_file_type fn =
      .error (.httpError 415
        "Unsupported file type. Supported types: .txt, .rtf, .pdf, .doc, .docx") ∧
    validate_file_size content =
      .error (.httpError 413 "File too large. Maximum size is 10.0MB") ∧
    extract_text_from_file none content fn =
      .error (.httpError 500 "Text extraction not available. Please install textxtract library.") ∧
    extract_text_from_file (some ex) content fn =
      .error (.httpError 500 ("Failed to extract text from \x27" ++ fn ++ "\x27: " ++ msg)) ∧
    (∀ file2, prepare_text ext none (some file2) = process_file_input ext file2) ∧
    prepare_text_from_files ext (f :: rest) =
      .error (.httpError 400
        ("Failed to process file \x27" ++ fn2 ++ "\x27: " ++ pyStrOfErr e)) := by
  refine ⟨?_, ?_, rfl, ?_, fun _ => rfl, ?_⟩
  · simp [validate_file_type, hty]
    rfl
  · simp [validate_file_size, hbig]
  · simp [extract_text_from_file, hraise]
  · simp [prepare_text_from_files, processFilesLoop, hfail, batchWrap, hfn2]

/-- Witness for the amended C3 at concrete inputs for every conjunct. -/
theorem c3_error_transport_witness :
    validate_file_type "report.xlsx" =
      .error (.httpError 415
        "Unsupported file type. Supported types: .txt, .rtf, .pdf, .doc, .docx") ∧
    validate_file_size (List.replicate (MAX_FILE_SIZE + 1) 0) =
      .error (.httpError 413 "File too large. Maximum size is 10.0MB") ∧
    extract_text_from_file none (List.replicate (MAX_FILE_SIZE + 1) 0) "report.xlsx" =
      .error (.httpError 500 "Text extraction not available. Please install textxtract library.") ∧
    extract_text_from_file
        (some (fun _ _ => ExtractOutcome.raise "boom"))
        (List.replicate (MAX_FILE_SIZE + 1) 0) "report.xlsx" =
      .error (.httpError 500 ("Failed to extract text from \x27report.xlsx\x27: " ++ "boom")) ∧
    (∀ file2, prepare_text none none (some file2) = process_file_input none file2) ∧
    prepare_text_from_files none (⟨some "report.xlsx", [65]⟩ :: []) =
      .error (.httpError 400
        ("Failed to process file \x27report.xlsx\x27: " ++
          pyStrOfErr (.httpError 415
            "Unsupported file type. Supported types: .txt, .rtf, .pdf, .doc, .docx"))) :=
  c3_error_transport none "report.xlsx" (List.replicate (MAX_FILE_SIZE + 1) 0)
    ⟨some "report.xlsx", [65]⟩ "report.xlsx" []
    (.httpError 415 "Unsupported file type. Supported types: .txt, .rtf, .pdf, .doc, .docx")
    (fun _ _ => ExtractOutcome.raise "boom") "boom"
    (by decide) (by simp) rfl rfl rfl

theorem processFilesLoop_all_ok (ext : Option Extractor) (res : UploadFile → List Char) :
    ∀ files : List UploadFile,
      (∀ f ∈ files, process_file_input ext f = .ok (res f)) →
      processFilesLoop ext files = .ok (files.map res)
  | [], _ => rfl
  | f :: fs, h => by
    have hf := h f (List.mem_cons_self f fs)
    have ih := processFilesLoop_all_ok ext res fs (fun g hg => h g (List.mem_cons_of_mem f hg))
    simp [processFilesLoop, hf, ih]

theorem processFilesLoop_first_error (ext : Option Extractor) (res : UploadFile → List Char)
    (f : UploadFile) (e : PyErr) (hf : process_file_input ext f = .error e) :
    ∀ (pre rest : List UploadFile),
      (∀ g ∈ pre, process_file_input ext g = .ok (res g)) →
      processFilesLoop ext (pre ++ f :: rest) = .error (batchWrap f e)
  | [], rest, _ => by simp [processFilesLoop, hf]
  | g :: pre, rest, h => by
    have hg := h g (List.mem_cons_self g pre)
    have ih := processFilesLoop_first_error ext res f e hf pre rest
      (fun x hx => h x (List.mem_cons_of_mem g hx))
    simp [processFilesLoop, hg, ih]

/-- C2: batch semantics of `prepare_text_from_files`: an empty input list
fails with `InvalidInput`; when every file succeeds the results come back in
input order, one per file; when a file fails (after any prefix of successes)
that first failure is propagated at once — the result is determined by the
failing file alone, for every possible remainder `rest`, so no later file is
processed. -/
theorem c2_batch_semantics (ext : Option Extractor) (files pre rest : List UploadFile)
    (f : UploadFile) (res : UploadFile → List Char) (e : PyErr)
    (hfiles : files ≠ [])
    (hall : ∀ g ∈ files, process_file_input ext g = .ok (res g))
    (hpre : ∀ g ∈ pre, process_file_input ext g = .ok (res g))
    (hf : process_file_input ext f = .error e) :
    prepare_text_from_files ext [] = .error (.valueError "At least one file must be provided") ∧
    prepare_text_from_files ext files = .ok (files.map res) ∧
    prepare_text_from_files ext (pre ++ f :: rest) = .error (batchWrap f e) := by
  refine ⟨rfl, ?_, ?_⟩
  · have h1 : files.isEmpty = false := by
      simpa using hfiles
    simp [prepare_text_from_files, h1, processFilesLoop_all_ok ext res files hall]
  · have h2 : (pre ++ f :: rest).isEmpty = false := by simp
    simp [prepare_text_from_files, h2,
      processFilesLoop_first_error ext res f e hf pre rest hpre]

/-- Witness for C2: a successful singleton batch, and a batch whose second
file (empty payload) fails with the third file untouched. -/
theorem c2_batch_semantics_witness :
    prepare_text_from_files none [] = .error (.valueError "At least one file must be provided") ∧
    prepare_text_from_files none [⟨some "a.txt", [104, 105]⟩] = .ok [['h', 'i']] ∧
    prepare_text_from_files none
        ([⟨some "a.txt", [104, 105]⟩] ++ ⟨some "b.txt", []⟩ :: [⟨some "c.txt", [105]⟩]) =
      .error (batchWrap ⟨some "b.txt", []⟩ (.httpError 400 "File is empty")) :=
  c2_batch_semantics none [⟨some "a.txt", [104, 105]⟩] [⟨some "a.txt", [104, 105]⟩]
    [⟨some "c.txt", [105]⟩] ⟨some "b.txt", []⟩ (fun _ => ['h', 'i'])
    (.httpError 400 "File is empty") (by simp)
    (fun g hg => by rw [List.mem_singleton] at hg; subst hg; rfl)
    (fun g hg => by rw [List.mem_singleton] at hg; subst hg; rfl)
    rfl

theorem map_cons_ne_nil {a : Char} {o : Option (List Char)} {cs : List Char}
    (h : o.map (fun cs => a :: cs) = some cs) : cs ≠ [] := by
  cases o with
  | none => cases h
  | some x =>
    injection h with h1
    subst h1
    simp

theorem utf8DecodeFuel_cons_ne_nil {fuel : Nat} {b : Byte} {bs : List Byte} {cs : List Char}
    (h : utf8DecodeFuel fuel (b :: bs) = some cs) : cs ≠ [] := by
  cases fuel with
  | zero => cases h
  | succ f =>
    simp only [utf8DecodeFuel] at h
    repeat' split at h
    all_goals first
      | exact map_cons_ne_nil h
      | cases h

theorem utf8Decode_cons_ne_nil {b : Byte} {bs : List Byte} {cs : List Char}
    (h : utf8Decode (b :: bs) = some cs) : cs ≠ [] :=
  utf8DecodeFuel_cons_ne_nil (h : utf8DecodeFuel (b :: bs).length (b :: bs) = some cs)

theorem decode_text_file_ok_ne_nil {bs : List Byte} {r : List Char}
    (hbs : bs ≠ []) (h : decode_text_file bs = .ok r) : r ≠ [] := by
  rw [decode_text_file_eq bs] at h
  injection h with h'
  obtain ⟨b, bs2, rfl⟩ := List.exists_cons_of_ne_nil hbs
  cases hu : utf8Decode (b :: bs2) with
  | some u =>
    rw [hu] at h'
    subst h'
    exact utf8Decode_cons_ne_nil hu
  | none =>
    rw [hu] at h'
    subst h'
    simp [latin1Decode]

theorem validate_file_size_ok_ne_nil {c : List Byte} {u : Unit}
    (h : validate_file_size c = .ok u) : c ≠ [] := by
  intro hnil
  subst hnil
  have hnil2 : validate_file_size [] = .error (.httpError 400 "File is empty") := rfl
  rw [hnil2] at h
  cases h

theorem process_text_input_ok_ne_nil {l r : List Char}
    (h : process_text_input l = .ok r) : r ≠ [] := by
  simp only [process_text_input] at h
  split at h
  · cases h
  · rename_i hcond
    injection h with h'
    subst h'
    simpa using hcond

theorem extract_ok_ne_nil {ext : Option Extractor} {content : List Byte} {fn : String}
    {r : List Char} (h : extract_text_from_file ext content fn = .ok r) : r ≠ [] := by
  unfold extract_text_from_file at h
  split at h
  · cases h
  · split at h
    · cases h
    · split at h
      · cases h
      · rename_i hcond
        injection h with h'
        subst h'
        simp only [Bool.or_eq_true, not_or] at hcond
        simpa using hcond.2

theorem process_file_input_ok_ne_nil {ext : Option Extractor} {f : UploadFile}
    {r : List Char} (h : process_file_input ext f = .ok r) : r ≠ [] := by
  simp only [process_file_input] at h
  split at h
  · cases h
  · split at h
    · cases h
    · split at h
      · cases h
      · rename_i hsize
        split at h
        · exact decode_text_file_ok_ne_nil (validate_file_size_ok_ne_nil hsize) h
        · exact extract_ok_ne_nil h

theorem processFilesLoop_ok_all_ne_nil (ext : Option Extractor) :
    ∀ (files : List UploadFile) (rs : List (List Char)),
      processFilesLoop ext files = .ok rs → ∀ x ∈ rs, x ≠ []
  | [], rs, h => by
    injection h with h'
    subst h'
    simp
  | f :: fs, rs, h => by
    unfold processFilesLoop at h
    split at h
    · rename_i t ht
      split at h
      · rename_i ts hts
        injection h with h'
        subst h'
        intro x hx
        rcases List.mem_cons.mp hx with rfl | hx2
        · exact process_file_input_ok_ne_nil ht
        · exact processFilesLoop_ok_all_ne_nil ext fs ts hts x hx2
      · cases h
    · cases h

/-- C4: non-emptiness invariant: every string returned by a successful
`prepare_text` (on any of its paths) is non-empty, and every element of a
successful `prepare_text_from_files` result is non-empty. -/
theorem c4_results_nonempty (ext : Option Extractor) (text : Option String)
    (file : Option UploadFile) (files : List UploadFile)
    (r : List Char) (rs : List (List Char)) :
    (prepare_text ext text file = .ok r → r ≠ []) ∧
    (prepare_text_from_files ext files = .ok rs → ∀ x ∈ rs, x ≠ []) := by
  constructor
  · intro h
    unfold prepare_text at h
    split at h
    · cases h
    · split at h
      · exact process_text_input_ok_ne_nil h
      · split at h
        · exact process_file_input_ok_ne_nil h
        · cases h
  · intro h
    unfold prepare_text_from_files at h
    split at h
    · cases h
    · exact processFilesLoop_ok_all_ne_nil ext files rs h

/-- Witness for C4 on a successful text call and a successful one-file batch. -/
theorem c4_results_nonempty_witness :
    (['h', 'i'] : List Char) ≠ [] ∧ ∀ x ∈ [['h', 'i']], x ≠ ([] : List Char) :=
  ⟨(c4_results_nonempty none (some "hi") none [] ['h', 'i'] []).1 rfl,
   (c4_results_nonempty none none none [⟨some "a.txt", [104, 105]⟩] [] [['h', 'i']]).2 rfl⟩

/-! ## Theory of `words` (Python `str.split()`) and whitespace normalization -/

theorem wordsFuel_congr : ∀ (fuel : Nat) (l : List Char), l.length ≤ fuel →
    wordsFuel fuel l = words l := by
  intro fuel
  induction fuel using Nat.strong_induction_on with
  | _ fuel ih =>
    intro l hl
    cases l with
    | nil => cases fuel <;> rfl
    | cons c cs =>
      cases fuel with
      | zero => simp at hl
      | succ f =>
        have hcs : cs.length ≤ f := by
          simpa using hl
        by_cases hsp : isSpace c = true
        · have h1 : wordsFuel (f + 1) (c :: cs) = wordsFuel f cs := by
            simp only [wordsFuel]
            rw [if_pos hsp]
          have h2 : words (c :: cs) = wordsFuel cs.length cs := by
            show wordsFuel (cs.length + 1) (c :: cs) = wordsFuel cs.length cs
            simp only [wordsFuel]
            rw [if_pos hsp]
          rw [h1, h2]
          exact ih f (Nat.lt_succ_self f) cs hcs
        · have hdr : (cs.dropWhile (fun x => !isSpace x)).length ≤ cs.length :=
            (List.dropWhile_sublist _).length_le
          have h1 : wordsFuel (f + 1) (c :: cs) =
              (c :: cs.takeWhile (fun x => !isSpace x)) ::
                wordsFuel f (cs.dropWhile (fun x => !isSpace x)) := by
            simp only [wordsFuel]
            rw [if_neg hsp]
          have h2 : words (c :: cs) =
              (c :: cs.takeWhile (fun x => !isSpace x)) ::
                wordsFuel cs.length (cs.dropWhile (fun x => !isSpace x)) := by
            show wordsFuel (cs.length + 1) (c :: cs) = _
            simp only [wordsFuel]
            rw [if_neg hsp]
          rw [h1, h2, ih f (Nat.lt_succ_self f) _ (hdr.trans hcs),
            ih cs.length (Nat.lt_succ_of_le hcs) _ hdr]

theorem words_nil : words [] = [] := rfl

theorem words_cons_space {c : Char} (cs : List Char) (h : isSpace c = true) :
    words (c :: cs) = words cs := by
  show wordsFuel (cs.length + 1) (c :: cs) = words cs
  simp only [wordsFuel]
  rw [if_pos h]
  exact wordsFuel_congr cs.length cs (Nat.le_refl _)

theorem words_cons_nonspace {c : Char} (cs : List Char) (h : isSpace c = false) :
    words (c :: cs) = (c :: cs.takeWhile (fun x => !isSpace x)) ::
      words (cs.dropWhile (fun x => !isSpace x)) := by
  show wordsFuel (cs.length + 1) (c :: cs) = _
  simp only [wordsFuel]
  rw [if_neg (by simp [h])]
  rw [wordsFuel_congr cs.length _ ((List.dropWhile_sublist _).length_le)]

theorem words_dropWhile (l : List Char) :
    words (l.dropWhile isSpace) = words l := by
  induction l with
  | nil => rfl
  | cons c cs ih =>
    by_cases h : isSpace c = true
    · rw [List.dropWhile_cons_of_pos h, ih, words_cons_space cs h]
    · rw [List.dropWhile_cons_of_neg h]

theorem words_sound (l : List Char) :
    ∀ w ∈ words l, w ≠ [] ∧ ∀ c ∈ w, isSpace c = false :=
  match l with
  | [] => by simp [words_nil]
  | c :: cs =>
    if h : isSpace c = true then by
      rw [words_cons_space cs h]
      exact words_sound cs
    else by
      have hc : isSpace c = false := by
        simpa using h
      rw [words_cons_nonspace cs hc]
      intro w hw
      rcases List.mem_cons.mp hw with rfl | hmem
      · refine ⟨by simp, ?_⟩
        intro x hx
        rcases List.mem_cons.mp hx with rfl | hx2
        · exact hc
        · simpa using List.mem_takeWhile_imp hx2
      · exact words_sound (cs.dropWhile fun x => !isSpace x) w hmem
termination_by l.length
decreasing_by
  · simp only [List.length_cons]
    omega
  · have := (List.dropWhile_sublist (fun x => !isSpace x) (l := cs)).length_le
    simp only [List.length_cons]
    omega

theorem words_word_space {w : List Char} (hw : w ≠ [])
    (hns : ∀ c ∈ w, isSpace c = false) (t : List Char) :
    words (w ++ ' ' :: t) = w :: words t := by
  obtain ⟨c, cs, rfl⟩ := List.exists_cons_of_ne_nil hw
  rw [List.cons_append,
    words_cons_nonspace _ (hns c (List.mem_cons_self c cs)),
    List.takeWhile_append_of_pos
      (fun a ha => by simp [hns a (List.mem_cons_of_mem c ha)]),
    List.dropWhile_append_of_pos
      (fun a ha => by simp [hns a (List.mem_cons_of_mem c ha)]),
    List.takeWhile_cons_of_neg (by simp [isSpace]),
    List.dropWhile_cons_of_neg (by simp [isSpace]),
    words_cons_space _ (by simp [isSpace])]
  simp

theorem joinWords_cons_of_ne_nil {w : List Char} {ws : List (List Char)} (h : ws ≠ []) :
    joinWords (w :: ws) = w ++ ' ' :: joinWords ws := by
  obtain ⟨w2, ws2, rfl⟩ := List.exists_cons_of_ne_nil h
  rfl

theorem joinWords_ne_nil {w : List Char} (ws : List (List Char)) (hw : w ≠ []) :
    joinWords (w :: ws) ≠ [] := by
  cases ws with
  | nil => exact hw
  | cons w2 ws2 =>
    rw [joinWords_cons_of_ne_nil (by simp)]
    simp [hw]

theorem words_joinWords : ∀ ws : List (List Char),
    (∀ w ∈ ws, w ≠ [] ∧ ∀ c ∈ w, isSpace c = false) → words (joinWords ws) = ws
  | [], _ => rfl
  | [w], h => by
    obtain ⟨hne, hns⟩ := h w (List.mem_singleton_self w)
    obtain ⟨c, cs, rfl⟩ := List.exists_cons_of_ne_nil hne
    show words (c :: cs) = [c :: cs]
    rw [words_cons_nonspace cs (hns c (List.mem_cons_self c cs)),
      List.takeWhile_eq_self_iff.mpr
        (fun x hx => by simp [hns x (List.mem_cons_of_mem c hx)]),
      List.dropWhile_eq_nil_iff.mpr
        (fun x hx => by simp [hns x (List.mem_cons_of_mem c hx)])]
    rfl
  | w :: w2 :: ws, h => by
    obtain ⟨hne, hns⟩ := h w (List.mem_cons_self w (w2 :: ws))
    rw [joinWords_cons_of_ne_nil (by simp), words_word_space hne hns,
      words_joinWords (w2 :: ws) (fun x hx => h x (List.mem_cons_of_mem w hx))]

theorem dropWhile_eq_self_of_head {l : List Char} {c : Char}
    (hh : l.head? = some c) (hc : isSpace c = false) :
    l.dropWhile isSpace = l := by
  cases l with
  | nil => rfl
  | cons a t =>
    rw [List.head?_cons] at hh
    injection hh with h3
    subst h3
    exact List.dropWhile_cons_of_neg (by simp [hc])

theorem exists_getLast?_mem {l : List Char} (h : l ≠ []) :
    ∃ c, l.getLast? = some c ∧ c ∈ l := by
  have hr : l.reverse ≠ [] := by simpa using h
  obtain ⟨c, t, hct⟩ := List.exists_cons_of_ne_nil hr
  refine ⟨c, ?_, ?_⟩
  · rw [← List.head?_reverse, hct]
    rfl
  · have hmem : c ∈ l.reverse := by
      rw [hct]
      exact List.mem_cons_self c t
    simpa using hmem

theorem getLast?_joinWords_mem : ∀ ws : List (List Char),
    (∀ w ∈ ws, w ≠ []) → ws ≠ [] →
    ∃ c w, w ∈ ws ∧ c ∈ w ∧ (joinWords ws).getLast? = some c
  | [], _, hne => (hne rfl).elim
  | [w], h, _ => by
    obtain ⟨c, hc, hcm⟩ := exists_getLast?_mem (h w (List.mem_singleton_self w))
    exact ⟨c, w, List.mem_singleton_self w, hcm, hc⟩
  | w :: w2 :: ws, h, _ => by
    obtain ⟨c, w0, hw0, hcw, hlast⟩ := getLast?_joinWords_mem (w2 :: ws)
      (fun x hx => h x (List.mem_cons_of_mem w hx)) (by simp)
    refine ⟨c, w0, List.mem_cons_of_mem w hw0, hcw, ?_⟩
    rw [joinWords_cons_of_ne_nil (by simp)]
    have h1 : (' ' :: joinWords (w2 :: ws)).getLast? = some c := by
      rw [show (' ' :: joinWords (w2 :: ws)) = [' '] ++ joinWords (w2 :: ws) from rfl,
        List.getLast?_append, hlast]
      rfl
    rw [List.getLast?_append, h1]
    rfl

theorem head?_joinWords {w : List Char} (ws : List (List Char)) (hw : w ≠ []) :
    (joinWords (w :: ws)).head? = w.head? := by
  cases ws with
  | nil => rfl
  | cons w2 ws2 =>
    rw [joinWords_cons_of_ne_nil (by simp), List.head?_append]
    obtain ⟨c, cs, rfl⟩ := List.exists_cons_of_ne_nil hw
    rfl

theorem pyStrip_joinWords (ws : List (List Char))
    (hwf : ∀ w ∈ ws, w ≠ [] ∧ ∀ c ∈ w, isSpace c = false) :
    pyStrip (joinWords ws) = joinWords ws := by
  cases ws with
  | nil => rfl
  | cons w rest =>
    obtain ⟨hne, hns⟩ := hwf w (List.mem_cons_self w rest)
    obtain ⟨c, cs, hw⟩ := List.exists_cons_of_ne_nil hne
    have hdrop : (joinWords (w :: rest)).dropWhile isSpace = joinWords (w :: rest) := by
      refine dropWhile_eq_self_of_head (c := c) ?_ ?_
      · rw [head?_joinWords rest hne, hw]
        rfl
      · exact hns c (by rw [hw]; exact List.mem_cons_self c cs)
    obtain ⟨c2, w0, hw0, hcw, hlast⟩ := getLast?_joinWords_mem (w :: rest)
      (fun x hx => (hwf x hx).1) (by simp)
    have hc2 : isSpace c2 = false := (hwf w0 hw0).2 c2 hcw
    have hrev : (joinWords (w :: rest)).reverse.dropWhile isSpace =
        (joinWords (w :: rest)).reverse := by
      refine dropWhile_eq_self_of_head (c := c2) ?_ hc2
      rw [List.head?_reverse, hlast]
    unfold pyStrip rdropSpace
    rw [hdrop, hrev, List.reverse_reverse]

/-- C9: normalization as performed by `_process_text_input` (strip, then
collapse whitespace runs via split and join) is idempotent. -/
theorem c9_normalize_idempotent (l : List Char) :
    pyNormalize (pyNormalize l) = pyNormalize l := by
  have hwf := words_sound (pyStrip l)
  show joinWords (words (pyStrip (joinWords (words (pyStrip l))))) =
    joinWords (words (pyStrip l))
  rw [pyStrip_joinWords _ hwf, words_joinWords _ hwf]

/-! ## Refinement of the normalization against the spec-side collapse -/

theorem specCollapseWs_nil : specCollapseWs [] = [] := by
  simp [specCollapseWs]

theorem specCollapseWs_cons_space {c : Char} (cs : List Char) (h : isSpace c = true) :
    specCollapseWs (c :: cs) = ' ' :: specCollapseWs (cs.dropWhile isSpace) := by
  simp only [specCollapseWs]
  rw [if_pos h]

theorem specCollapseWs_cons_nonspace {c : Char} (cs : List Char) (h : isSpace c = false) :
    specCollapseWs (c :: cs) = c :: specCollapseWs cs := by
  simp only [specCollapseWs]
  rw [if_neg (by simp [h])]

theorem specCollapseWs_of_no_space : ∀ m : List Char,
    (∀ c ∈ m, isSpace c = false) → specCollapseWs m = m
  | [], _ => specCollapseWs_nil
  | c :: cs, h => by
    rw [specCollapseWs_cons_nonspace cs (h c (List.mem_cons_self c cs)),
      specCollapseWs_of_no_space cs (fun x hx => h x (List.mem_cons_of_mem c hx))]

theorem specCollapseWs_append_of_no_space : ∀ (tk y : List Char),
    (∀ c ∈ tk, isSpace c = false) →
    specCollapseWs (tk ++ y) = tk ++ specCollapseWs y
  | [], y, _ => by simp
  | c :: tk, y, h => by
    rw [List.cons_append, specCollapseWs_cons_nonspace _ (h c (List.mem_cons_self _ _)),
      specCollapseWs_append_of_no_space tk y (fun x hx => h x (List.mem_cons_of_mem c hx)),
      List.cons_append]

theorem noLeadSpace_dropWhile (l : List Char) :
    noLeadSpace (l.dropWhile isSpace) := by
  intro c hc
  have h := List.head?_dropWhile_not isSpace l
  rw [hc] at h
  exact h

theorem noTrailSpace_rdropSpace (x : List Char) : noTrailSpace (rdropSpace x) := by
  intro c hc
  unfold rdropSpace at hc
  rw [List.getLast?_reverse] at hc
  have h := List.head?_dropWhile_not isSpace x.reverse
  rw [hc] at h
  exact h

theorem noLeadSpace_rdropSpace {x : List Char} (hx : noLeadSpace x) :
    noLeadSpace (rdropSpace x) := by
  intro c hc
  apply hx c
  have hsplit : rdropSpace x ++ (x.reverse.takeWhile isSpace).reverse = x := by
    unfold rdropSpace
    rw [← List.reverse_append, List.takeWhile_append_dropWhile, List.reverse_reverse]
  rw [← hsplit, List.head?_append, hc]
  rfl

theorem noLeadSpace_pyStrip (l : List Char) : noLeadSpace (pyStrip l) :=
  noLeadSpace_rdropSpace (noLeadSpace_dropWhile l)

theorem noTrailSpace_pyStrip (l : List Char) : noTrailSpace (pyStrip l) :=
  noTrailSpace_rdropSpace _

theorem joinWords_eq_specCollapseWs_bounded : ∀ (n : Nat) (l : List Char),
    l.length ≤ n → noLeadSpace l → noTrailSpace l →
    joinWords (words l) = specCollapseWs l := by
  intro n
  induction n using Nat.strong_induction_on with
  | _ n ih =>
    intro l hl hlead htrail
    match l with
    | [] => rw [words_nil, specCollapseWs_nil]; rfl
    | c :: cs =>
      have hc : isSpace c = false := hlead c rfl
      rw [words_cons_nonspace cs hc, specCollapseWs_cons_nonspace cs hc]
      have htk : ∀ x ∈ cs.takeWhile (fun x => !isSpace x), isSpace x = false := by
        intro x hx
        simpa using List.mem_takeWhile_imp hx
      rcases hdr : cs.dropWhile (fun x => !isSpace x) with _ | ⟨d, ds⟩
      · have hall : ∀ x ∈ cs, isSpace x = false := by
          intro x hx
          simpa using List.dropWhile_eq_nil_iff.mp hdr x hx
        rw [List.takeWhile_eq_self_iff.mpr (fun x hx => by simp [hall x hx]),
          words_nil, specCollapseWs_of_no_space cs hall]
        rfl
      · have hd : isSpace d = true := by
          have h := List.head?_dropWhile_not (fun x => !isSpace x) cs
          rw [hdr] at h
          simpa using h
        have hcs_split : cs = cs.takeWhile (fun x => !isSpace x) ++ d :: ds := by
          rw [← hdr, List.takeWhile_append_dropWhile]
        have hsplit2 : d :: ds = (d :: ds.takeWhile isSpace) ++ ds.dropWhile isSpace := by
          rw [List.cons_append, List.takeWhile_append_dropWhile]
        have hdecomp : c :: cs =
            (c :: (cs.takeWhile (fun x => !isSpace x) ++ d :: ds.takeWhile isSpace)) ++
              ds.dropWhile isSpace := by
          conv_lhs => rw [hcs_split, hsplit2]
          simp
        have hlead_r : noLeadSpace (ds.dropWhile isSpace) := noLeadSpace_dropWhile ds
        have hr_ne : ds.dropWhile isSpace ≠ [] := by
          intro hnil
          have hallds : ∀ x ∈ ds, isSpace x = true := List.dropWhile_eq_nil_iff.mp hnil
          obtain ⟨a, ha, ham⟩ := exists_getLast?_mem (l := d :: ds) (by simp)
          have hsp : isSpace a = true := by
            rcases List.mem_cons.mp ham with rfl | h2
            · exact hd
            · exact hallds a h2
          have hlast : (c :: cs).getLast? = some a := by
            rw [show c :: cs = (c :: cs.takeWhile (fun x => !isSpace x)) ++ d :: ds by
                conv_lhs => rw [hcs_split]
                simp,
              List.getLast?_append, ha]
            rfl
          rw [htrail a hlast] at hsp
          cases hsp
        have htrail_r : noTrailSpace (ds.dropWhile isSpace) := by
          intro a ha
          apply htrail a
          rw [hdecomp, List.getLast?_append, ha]
          rfl
        have hlen_r : (ds.dropWhile isSpace).length < n := by
          have h1 := (List.dropWhile_sublist isSpace (l := ds)).length_le
          have h2 : cs.length =
              (cs.takeWhile (fun x => !isSpace x)).length + (d :: ds).length := by
            conv_lhs => rw [hcs_split]
            rw [List.length_append]
          simp only [List.length_cons] at hl h2
          omega
        have hih := ih (ds.dropWhile isSpace).length hlen_r (ds.dropWhile isSpace)
          (Nat.le_refl _) hlead_r htrail_r
        have hwords_dr : words (d :: ds) = words (ds.dropWhile isSpace) := by
          rw [words_cons_space ds hd, words_dropWhile ds]
        have hwr_ne : words (ds.dropWhile isSpace) ≠ [] := by
          obtain ⟨e, es, her⟩ := List.exists_cons_of_ne_nil hr_ne
          have he : isSpace e = false := hlead_r e (by rw [her]; rfl)
          rw [her, words_cons_nonspace es he]
          simp
        rw [hwords_dr, joinWords_cons_of_ne_nil hwr_ne, hih]
        conv_rhs => rw [hcs_split]
        rw [specCollapseWs_append_of_no_space _ _ htk,
          specCollapseWs_cons_space ds hd]
        simp

theorem joinWords_eq_specCollapseWs (l : List Char)
    (hlead : noLeadSpace l) (htrail : noTrailSpace l) :
    joinWords (words l) = specCollapseWs l :=
  joinWords_eq_specCollapseWs_bounded l.length l (Nat.le_refl _) hlead htrail

/-- C6: the text-normalization path refines the spec wording: for every text
input, the result of `_process_text_input` is exactly the strip-then-collapse
normalization `specNormalize`, returned when non-empty, and the `EmptyInput`
`ValueError` is raised when it is empty. -/
theorem c6_text_normalization (t : String) :
    process_text_input t.data =
      if specNormalize t.data = [] then
        .error (.valueError "Provided text is empty after processing")
      else .ok (specNormalize t.data) := by
  have heq : pyNormalize t.data = specNormalize t.data := by
    unfold pyNormalize specNormalize
    exact joinWords_eq_specCollapseWs (pyStrip t.data)
      (noLeadSpace_pyStrip t.data) (noTrailSpace_pyStrip t.data)
  simp only [process_text_input, heq]
  rcases h : specNormalize t.data with _ | ⟨c, cs⟩ <;> simp

end FileHelperModel
